import Mathlib

/-!
Verification of the update/training core of `rnn_sac/sac_lstm/sac.py`
(meta-RL SAC with a recurrent policy).

Shallow embedding conventions:
* Tensors of shape `(T, 1)` (one scalar per transition of an episode) are
  `List ℚ`; per-action vectors of shape `(T, |A|)` are `List (List ℚ)` or
  `Obs → List ℚ` for a network applied row-wise.
* The neural networks themselves (policy head, twin critics, recurrent
  memory encoder) are external collaborators in the spec; they are embedded
  as opaque function parameters.  Autograd is not part of the pure model;
  `requires_grad` flags are carried explicitly as `Bool`s and the
  backward/optimizer steps are abstracted as functions on the flattened
  parameter list.
* Python's `itertools.chain` objects (`self.q_params`, `self.pi_params`)
  are one-shot iterators; they are embedded as a consumable `List Nat` of
  parameter indices that is emptied when `Adam(...)` materializes it.
* Fallible code (`assert`, an unbound local variable) is embedded with
  `Option` / `Except`.
-/

set_option autoImplicit false

namespace RnnSac

/-! ### Critic loss (`SAC.compute_critic_loss`, sac.py lines 137-182) -/

/-- Per-step tensors of one sampled episode as handed to
`compute_critic_loss`: `obs`, `act`, `rew`, `obs2`, `done` each hold one
entry per transition, and `hid_out` is the stored recurrent state used to
re-run the memory encoder (`batch['hid_out']`). -/
structure CriticBatch (Obs : Type) where
  obs : List Obs
  act : List Nat
  rew : List ℚ
  obs2 : List Obs
  done : List ℚ
  hid_out : List ℚ

/-- The networks consumed by `compute_critic_loss`.  `q1`, `q2` are the
online critics, `q1_targ`, `q2_targ` the target critics (each maps an
observation row to a per-action value vector).  `memPi2` is the composite
`self.ac.memory(next_obs, act, rew, h_out, training=True)` followed by
`self.ac.pi.sample`, returning per step the action-probability vector `a2`
and its log-probabilities `logp_a2`. -/
structure CriticNets (Obs : Type) where
  q1 : Obs → List ℚ
  q2 : Obs → List ℚ
  q1_targ : Obs → List ℚ
  q2_targ : Obs → List ℚ
  memPi2 : List Obs → List Nat → List ℚ → List ℚ → List (List ℚ × List ℚ)

/-- Mean of a list of rationals (`Tensor.mean`). -/
def listMean (l : List ℚ) : ℚ := l.sum / l.length

variable {Obs : Type}

/-- Element-wise minimum of the two target critics
(`torch.min(q1_targ, q2_targ)`, sac.py line 162). -/
def q_targ_min (net : CriticNets Obs) (o : Obs) : List ℚ :=
  List.zipWith min (net.q1_targ o) (net.q2_targ o)

/-- The soft next-state value
`next_q = (a2 * (q_targ - alpha * logp_a2)).sum(dim=1, keepdim=True)`
(sac.py lines 165-166), one entry per transition. -/
def next_q (net : CriticNets Obs) (alpha : ℚ) (b : CriticBatch Obs) : List ℚ :=
  List.zipWith
    (fun pl qt =>
      (List.zipWith (fun p x => p * x) pl.1
        (List.zipWith (fun q lp => q - alpha * lp) qt pl.2)).sum)
    (net.memPi2 b.obs2 b.act b.rew b.hid_out)
    (b.obs2.map (q_targ_min net))

/-- Embedding of `SAC.compute_critic_loss` (sac.py lines 137-182).
Returns `none` when the `assert rew.shape == next_q.shape` on line 168
fails, otherwise `some (loss_q, backup)` where
`backup = rew + gamma * (1 - done) * next_q` (line 169) and
`loss_q = mean((q1 - backup)^2) + mean((q2 - backup)^2)` with `q1`, `q2`
gathered at the taken action (lines 150-151, 172-174). -/
def compute_critic_loss (net : CriticNets Obs) (gamma alpha : ℚ)
    (b : CriticBatch Obs) : Option (ℚ × List ℚ) :=
  let q1g := List.zipWith (fun o a => (net.q1 o).getD a 0) b.obs b.act
  let q2g := List.zipWith (fun o a => (net.q2 o).getD a 0) b.obs b.act
  let nq := next_q net alpha b
  if b.rew.length = nq.length then
    let backup := List.zipWith3 (fun r dn nv => r + gamma * (1 - dn) * nv)
      b.rew b.done nq
    some (listMean (List.zipWith (fun q bk => (q - bk) ^ 2) q1g backup)
          + listMean (List.zipWith (fun q bk => (q - bk) ^ 2) q2g backup),
          backup)
  else
    none

/-- Modelled from the spec: the bootstrap-target formula
`backup = reward + gamma * (1 - done) * next_v` with
`next_v = sum_a pi2(a) * (q_targ_min(a) - alpha * logp2(a))`, stated for
one transition over an action space of cardinality `nAct`. -/
def backupSpec (gamma alpha : ℚ) (nAct : Nat) (rew done : ℚ)
    (pi2 logp2 qtmin : Nat → ℚ) : ℚ :=
  rew + gamma * (1 - done) *
    ∑ a ∈ Finset.range nAct, pi2 a * (qtmin a - alpha * logp2 a)

/-- Helper: `getD` of a `zipWith` inside its length. -/
theorem getD_zipWith {α β γ : Type} (f : α → β → γ) (l1 : List α)
    (l2 : List β) (i : Nat) (d1 : α) (d2 : β) (d : γ)
    (h : i < (List.zipWith f l1 l2).length) :
    (List.zipWith f l1 l2).getD i d = f (l1.getD i d1) (l2.getD i d2) := by
  induction l1 generalizing l2 i with
  | nil => simp at h
  | cons a t ih =>
    cases l2 with
    | nil => simp at h
    | cons b t2 =>
      cases i with
      | zero => rfl
      | succ j =>
        simp only [List.zipWith_cons_cons, List.length_cons] at h
        simpa using ih t2 j (Nat.lt_of_succ_lt_succ h)

/-- Helper: `getD` of a `map` inside its length. -/
theorem getD_map {α γ : Type} (f : α → γ) (l : List α) (i : Nat)
    (d1 : α) (d : γ) (h : i < (l.map f).length) :
    (l.map f).getD i d = f (l.getD i d1) := by
  induction l generalizing i with
  | nil => simp at h
  | cons a t ih =>
    cases i with
    | zero => rfl
    | succ j =>
      simp only [List.map_cons, List.length_cons] at h
      simpa using ih j (Nat.lt_of_succ_lt_succ h)

/-- Helper: the per-row zip-sum of `next_q` as a `Finset.range` sum, when
the three action vectors share the cardinality `n`. -/
theorem zip_sum_eq_finset_sum (alpha : ℚ) (p lp q : List ℚ) (n : Nat)
    (hp : p.length = n) (hl : lp.length = n) (hq : q.length = n) :
    (List.zipWith (fun a x => a * x) p
      (List.zipWith (fun y z => y - alpha * z) q lp)).sum
      = ∑ a ∈ Finset.range n, p.getD a 0 * (q.getD a 0 - alpha * lp.getD a 0) := by
  induction p generalizing lp q n with
  | nil =>
    subst hp
    simp
  | cons ph pt ih =>
    cases lp with
    | nil => simp at hp hl; omega
    | cons lh lt =>
      cases q with
      | nil => simp at hp hq; omega
      | cons qh qt =>
        cases n with
        | zero => simp at hp
        | succ m =>
          simp only [List.length_cons, Nat.succ.injEq] at hp hl hq
          rw [Finset.sum_range_succ']
          simp only [List.zipWith_cons_cons, List.sum_cons, List.getD_cons_succ,
            List.getD_cons_zero]
          rw [ih lt qt m hp hl hq]
          ring

/-- Helper: length of a `zipWith3`. -/
theorem length_zipWith3 {α β γ δ : Type} (f : α → β → γ → δ)
    (l1 : List α) (l2 : List β) (l3 : List γ) :
    (List.zipWith3 f l1 l2 l3).length = min l1.length (min l2.length l3.length) := by
  induction l1 generalizing l2 l3 with
  | nil => simp [List.zipWith3]
  | cons a t ih =>
    cases l2 with
    | nil => simp [List.zipWith3]
    | cons b t2 =>
      cases l3 with
      | nil => simp [List.zipWith3]
      | cons c t3 =>
        simp only [List.zipWith3, List.length_cons, ih]
        omega

/-- Helper: `getD` of a `zipWith3` inside its length. -/
theorem getD_zipWith3 {α β γ δ : Type} (f : α → β → γ → δ)
    (l1 : List α) (l2 : List β) (l3 : List γ) (i : Nat)
    (d1 : α) (d2 : β) (d3 : γ) (d : δ)
    (h : i < (List.zipWith3 f l1 l2 l3).length) :
    (List.zipWith3 f l1 l2 l3).getD i d
      = f (l1.getD i d1) (l2.getD i d2) (l3.getD i d3) := by
  induction l1 generalizing l2 l3 i with
  | nil => simp [List.zipWith3] at h
  | cons a t ih =>
    cases l2 with
    | nil => simp [List.zipWith3] at h
    | cons b t2 =>
      cases l3 with
      | nil => simp [List.zipWith3] at h
      | cons c t3 =>
        cases i with
        | zero => rfl
        | succ j =>
          simp only [List.zipWith3, List.length_cons] at h
          simpa [List.zipWith3] using ih t2 t3 j (Nat.lt_of_succ_lt_succ h)

/-- C1: in `compute_critic_loss`, under the precondition of the
`assert rew.shape == next_q.shape` (line 168), the computation succeeds and
every entry of the bootstrap target satisfies
`backup = reward + gamma * (1 - done) * next_v` with
`next_v = sum_a pi2(a) * (q_targ_min(a) - alpha * logp2(a))`, where
`pi2`/`logp2` are the action distribution and log-probabilities produced by
the online memory encoder and policy on the next observation, and
`q_targ_min` is the element-wise minimum of the two target-critic value
vectors. -/
theorem compute_critic_loss_backup_formula (net : CriticNets Obs)
    (gamma alpha : ℚ) (b : CriticBatch Obs) (nAct : Nat)
    (hlen : b.rew.length = (next_q net alpha b).length)
    (hdist : ∀ pl ∈ net.memPi2 b.obs2 b.act b.rew b.hid_out,
      pl.1.length = nAct ∧ pl.2.length = nAct)
    (hq : ∀ o ∈ b.obs2, (q_targ_min net o).length = nAct) :
    ∃ loss backup, compute_critic_loss net gamma alpha b = some (loss, backup) ∧
      ∀ i, i < backup.length →
        backup.getD i 0 = backupSpec gamma alpha nAct
          (b.rew.getD i 0) (b.done.getD i 0)
          (fun a => ((net.memPi2 b.obs2 b.act b.rew b.hid_out).getD i ([], [])).1.getD a 0)
          (fun a => ((net.memPi2 b.obs2 b.act b.rew b.hid_out).getD i ([], [])).2.getD a 0)
          (fun a => ((b.obs2.map (q_targ_min net)).getD i []).getD a 0) := by
  simp only [compute_critic_loss]
  rw [if_pos hlen]
  refine ⟨_, _, rfl, ?_⟩
  intro i hi
  rw [length_zipWith3] at hi
  have hrew : i < b.rew.length := by omega
  have hdone : i < b.done.length := by omega
  have hnq : i < (next_q net alpha b).length := by omega
  rw [getD_zipWith3 _ _ _ _ i 0 0 0 0 (by rw [length_zipWith3]; omega)]
  have hnqlen : (next_q net alpha b).length
      = min (net.memPi2 b.obs2 b.act b.rew b.hid_out).length
          (b.obs2.map (q_targ_min net)).length := by
    simp [next_q, List.length_zipWith]
  have hd : i < (net.memPi2 b.obs2 b.act b.rew b.hid_out).length := by omega
  have hm : i < (b.obs2.map (q_targ_min net)).length := by omega
  have hrow : (next_q net alpha b).getD i 0
      = (List.zipWith (fun p x => p * x)
          ((net.memPi2 b.obs2 b.act b.rew b.hid_out).getD i ([], [])).1
          (List.zipWith (fun q lp => q - alpha * lp)
            ((b.obs2.map (q_targ_min net)).getD i [])
            ((net.memPi2 b.obs2 b.act b.rew b.hid_out).getD i ([], [])).2)).sum := by
    simp only [next_q]
    rw [getD_zipWith _ _ _ i ([], []) [] 0 (by rw [List.length_zipWith]; omega)]
  rw [hrow]
  have hmemd : (net.memPi2 b.obs2 b.act b.rew b.hid_out).getD i ([], [])
      ∈ net.memPi2 b.obs2 b.act b.rew b.hid_out := by
    rw [List.getD_eq_getElem _ _ hd]
    exact List.getElem_mem hd
  obtain ⟨hp1, hp2⟩ := hdist _ hmemd
  have hmapmem : (b.obs2.map (q_targ_min net)).getD i [] ∈ b.obs2.map (q_targ_min net) := by
    rw [List.getD_eq_getElem _ _ hm]
    exact List.getElem_mem hm
  obtain ⟨o, ho, hoeq⟩ := List.mem_map.mp hmapmem
  have hqt : ((b.obs2.map (q_targ_min net)).getD i []).length = nAct := by
    rw [← hoeq]; exact hq o ho
  rw [zip_sum_eq_finset_sum alpha _ _ _ nAct hp1 hp2 hqt]
  rfl

/-- Witness for C1: a concrete one-transition batch over a two-action space
on which the hypotheses of `compute_critic_loss_backup_formula` hold. -/
theorem compute_critic_loss_backup_formula_witness :
    let net : CriticNets Nat :=
      ⟨fun o => [(o : ℚ), 2], fun o => [(o : ℚ) + 1, 3],
       fun o => [(o : ℚ), 5], fun o => [(o : ℚ) + 2, 4],
       fun _ _ _ _ => [([(1 : ℚ)/2, 1/2], [-(1 : ℚ), -1])]⟩
    let b : CriticBatch Nat := ⟨[3], [0], [(1 : ℚ)], [7], [(0 : ℚ)], [0]⟩
    ∃ loss backup, compute_critic_loss net (9/10) (1/5) b = some (loss, backup) ∧
      ∀ i, i < backup.length →
        backup.getD i 0 = backupSpec (9/10) (1/5) 2
          (b.rew.getD i 0) (b.done.getD i 0)
          (fun a => ((net.memPi2 b.obs2 b.act b.rew b.hid_out).getD i ([], [])).1.getD a 0)
          (fun a => ((net.memPi2 b.obs2 b.act b.rew b.hid_out).getD i ([], [])).2.getD a 0)
          (fun a => ((b.obs2.map (q_targ_min net)).getD i []).getD a 0) :=
  compute_critic_loss_backup_formula _ (9/10) (1/5) _ 2 (by decide)
    (by decide) (by decide)

/-! ### Online/target parameters and `SAC.update` (sac.py lines 79-128, 216-279)

The flattened list of `self.ac.parameters()` values is `online : List ℚ`,
aligned index-by-index with `target : List ℚ` for `self.ac_targ.parameters()`
(`copy.deepcopy` preserves the parameter order, and the polyak loop zips the
two generators).  `qIdx`/`piIdx` are the positions (into `online`) of the
`ac.q1 ++ ac.q2` and `ac.pi ++ ac.memory` parameters.  `qChain`/`piChain`
embed the one-shot `itertools.chain` iterators `self.q_params` and
`self.pi_params`: iterating them consumes them, so a list that has been
materialized once is empty afterwards.  `qOptim`/`piOptim` are the parameter
positions held by the two `Adam` optimizers.  Gradient-descent arithmetic
(backward, clipping, Adam state) is abstracted into a `GradOracle` of opaque
functions: the claims checked here are about which parameters an update may
touch and in which order, not about gradient values. -/

/-- Mutable trainer state relevant to parameter handling. -/
structure Trainer where
  online : List ℚ
  onlineReq : List Bool
  target : List ℚ
  targetReq : List Bool
  qIdx : List Nat
  piIdx : List Nat
  qChain : List Nat
  piChain : List Nat
  qOptim : List Nat
  piOptim : List Nat
  alpha : ℚ
  logAlpha : ℚ
  useAnnealing : Bool
deriving DecidableEq

/-- Abstraction of the gradient machinery used inside `update` for one
episode: `stepQ` is the critic backward/clip/`q_optimizer.step()` acting on
the flattened online parameters, `stepPi` the policy counterpart,
`logpStat` the scalar `(logp_pi.detach() + self.entropy_target).mean()`,
`alphaStep` the `alpha_optimizer` step on `log_alpha`, and `expFn` the
`exp` in `self.alpha = self.log_alpha.exp()`. -/
structure GradOracle (E : Type) where
  stepQ : List ℚ → E → List ℚ
  stepPi : List ℚ → E → List ℚ
  logpStat : E → ℚ
  alphaStep : ℚ → E → ℚ
  expFn : ℚ → ℚ

/-- Sets `requires_grad := b` for each listed parameter position
(`for p in it: p.requires_grad = b`). -/
def setReq (req : List Bool) (idxs : List Nat) (b : Bool) : List Bool :=
  idxs.foldl (fun r i => r.set i b) req

/-- Embedding of `SAC.__init__`'s parameter handling (sac.py lines 79-120):
the target network is a deep copy of the online one (same values, separate
storage), its parameters get `requires_grad = False`, the two
`itertools.chain` iterators are built, and then `Adam(self.pi_params)`
(line 117) and `Adam(self.q_params)` (line 119) each materialize — and
thereby exhaust — their iterator. -/
def initTrainer (ac0 : List ℚ) (qIdx piIdx : List Nat) (ann : Bool) : Trainer :=
  let t0 : Trainer :=
    { online := ac0
      onlineReq := List.replicate ac0.length true
      target := ac0
      targetReq := List.replicate ac0.length false
      qIdx := qIdx
      piIdx := piIdx
      qChain := qIdx
      piChain := piIdx
      qOptim := []
      piOptim := []
      alpha := if ann then 1 else 1/5
      logAlpha := 0
      useAnnealing := ann }
  let t1 : Trainer := { t0 with piOptim := t0.piChain, piChain := [] }
  let t2 : Trainer := { t1 with qOptim := t1.qChain, qChain := [] }
  t2

/-- Observable phases of one pass of `update`'s per-episode loop;
`policyBackward` records the `requires_grad` flags of the critic
(`qIdx`) parameters at the moment `loss_pi.backward()` runs. -/
inductive UpdEvent where
  | criticOptStep
  | policyBackward (criticReq : List Bool)
  | policyOptStep
  | targetSmooth
deriving DecidableEq

/-- Count of `targetSmooth` events. -/
def countSmooth : List UpdEvent → Nat
  | [] => 0
  | UpdEvent.targetSmooth :: rest => countSmooth rest + 1
  | _ :: rest => countSmooth rest

/-- One pass of the per-episode loop body of `SAC.update`
(sac.py lines 219-265): critic step, freeze loop over the (exhausted)
`self.q_params` iterator, policy step, unfreeze loop, temperature step.
Returns the new trainer state, the emitted events, and the value bound to
the local variable `alpha_loss` in this iteration. -/
def updateEpisode {E : Type} (g : GradOracle E) (t : Trainer) (ep : E) :
    Trainer × List UpdEvent × ℚ :=
  let online1 := g.stepQ t.online ep
  let req1 := setReq t.onlineReq t.qChain false
  let ev := UpdEvent.policyBackward (t.qIdx.map (fun i => req1.getD i true))
  let online2 := g.stepPi online1 ep
  let req2 := setReq req1 t.qChain true
  let (logAlpha2, alpha2, aLoss) :=
    if t.useAnnealing then
      let aLoss := -(t.logAlpha * g.logpStat ep)
      let la := g.alphaStep t.logAlpha ep
      (la, g.expFn la, aLoss)
    else
      (t.logAlpha, 1/5, (0 : ℚ))
  ({ t with online := online2, onlineReq := req2,
            logAlpha := logAlpha2, alpha := alpha2 },
   [UpdEvent.criticOptStep, ev, UpdEvent.policyOptStep], aLoss)

/-- The polyak smoothing formula applied once over the aligned parameter
lists (`p_targ.data.mul_(polyak); p_targ.data.add_((1-polyak) * p.data)`,
sac.py lines 272-279). -/
def polyakSmooth (polyak : ℚ) (target online : List ℚ) : List ℚ :=
  List.zipWith (fun pt p => polyak * pt + (1 - polyak) * p) target online

/-- The per-episode `for` loop of `SAC.update` (sac.py lines 219-265),
threading the trainer state, the accumulated event trace, and the local
variable `alpha_loss` (unbound before the first iteration, modelled as
`Option ℚ`). -/
def updLoop {E : Type} (g : GradOracle E) :
    List E → Trainer × List UpdEvent × Option ℚ → Trainer × List UpdEvent × Option ℚ
  | [], acc => acc
  | ep :: rest, acc =>
      let r := updateEpisode g acc.1 ep
      updLoop g rest (r.1, acc.2.1 ++ r.2.1, some r.2.2)

/-- Embedding of `SAC.update` (sac.py lines 216-279): run the per-episode
loop on an already sampled batch, then read `alpha_loss` at the logging
call on line 268 — on an empty batch this raises `NameError`, which
propagates together with the trainer state at the raise — and finally
perform the single target-smoothing pass (lines 271-279). -/
def update {E : Type} (g : GradOracle E) (polyak : ℚ) (t : Trainer)
    (batch : List E) : Except (String × Trainer) (Trainer × List UpdEvent) :=
  let res := updLoop g batch (t, [], none)
  match res.2.2 with
  | none => Except.error ("NameError: alpha_loss is not defined", res.1)
  | some _ =>
      Except.ok
        ({ res.1 with target := polyakSmooth polyak res.1.target res.1.online },
         res.2.1 ++ [UpdEvent.targetSmooth])

/-- Helper: the episode body never touches the target parameters, their
`requires_grad` flags, or the iterator/optimizer bookkeeping; this holds
for arbitrary gradient oracles, which is exactly the no-aliasing content of
`copy.deepcopy`: mutating the online parameters cannot reach the target
copy. -/
theorem updateEpisode_fields {E : Type} (g : GradOracle E) (t : Trainer)
    (ep : E) :
    (updateEpisode g t ep).1.target = t.target ∧
    (updateEpisode g t ep).1.targetReq = t.targetReq ∧
    (updateEpisode g t ep).1.qIdx = t.qIdx ∧
    (updateEpisode g t ep).1.qChain = t.qChain ∧
    (updateEpisode g t ep).1.piChain = t.piChain ∧
    (updateEpisode g t ep).1.qOptim = t.qOptim ∧
    (updateEpisode g t ep).1.piOptim = t.piOptim := by
  cases h : t.useAnnealing <;> simp [updateEpisode, h]

/-- Helper: the events emitted by one episode body, in order. -/
theorem updateEpisode_events {E : Type} (g : GradOracle E) (t : Trainer)
    (ep : E) :
    (updateEpisode g t ep).2.1
      = [UpdEvent.criticOptStep,
         UpdEvent.policyBackward
           (t.qIdx.map (fun i => (setReq t.onlineReq t.qChain false).getD i true)),
         UpdEvent.policyOptStep] := by
  cases h : t.useAnnealing <;> simp [updateEpisode, h]

/-- Helper: `countSmooth` is additive over append. -/
theorem countSmooth_append (l1 l2 : List UpdEvent) :
    countSmooth (l1 ++ l2) = countSmooth l1 + countSmooth l2 := by
  induction l1 with
  | nil => simp [countSmooth]
  | cons e rest ih =>
    cases e <;> simp [countSmooth, ih]
    omega

/-- Helper: invariants of the per-episode loop: the target copy and its
flags are untouched, no smoothing event is emitted, and once (or as soon
as) `alpha_loss` is bound it stays bound. -/
theorem updLoop_spec {E : Type} (g : GradOracle E) (batch : List E) :
    ∀ (t : Trainer) (evs : List UpdEvent) (o : Option ℚ),
      (updLoop g batch (t, evs, o)).1.target = t.target ∧
      (updLoop g batch (t, evs, o)).1.targetReq = t.targetReq ∧
      countSmooth (updLoop g batch (t, evs, o)).2.1 = countSmooth evs ∧
      (batch = [] → updLoop g batch (t, evs, o) = (t, evs, o)) ∧
      ((o.isSome = true ∨ batch ≠ []) →
        (updLoop g batch (t, evs, o)).2.2.isSome = true) := by
  induction batch with
  | nil =>
    intro t evs o
    refine ⟨rfl, rfl, rfl, fun _ => rfl, ?_⟩
    rintro (h | h)
    · exact h
    · exact absurd rfl h
  | cons ep rest ih =>
    intro t evs o
    have hfields := updateEpisode_fields g t ep
    have hstep : updLoop g (ep :: rest) (t, evs, o)
        = updLoop g rest ((updateEpisode g t ep).1,
            evs ++ (updateEpisode g t ep).2.1, some (updateEpisode g t ep).2.2) := rfl
    obtain ⟨ih1, ih2, ih3, _, ih5⟩ :=
      ih (updateEpisode g t ep).1 (evs ++ (updateEpisode g t ep).2.1)
        (some (updateEpisode g t ep).2.2)
    refine ⟨?_, ?_, ?_, ?_, ?_⟩
    · rw [hstep, ih1, hfields.1]
    · rw [hstep, ih2, hfields.2.1]
    · rw [hstep, ih3, countSmooth_append, updateEpisode_events]
      simp [countSmooth]
    · intro h; exact absurd h (by simp)
    · intro _
      rw [hstep]
      exact ih5 (Or.inl rfl)

/-- C2: each call to `update` performs exactly one target-smoothing pass,
after all episodes of the sampled batch have been processed: the call
succeeds, the new target vector equals
`polyak * old_target + (1 - polyak) * online` computed pair-wise against
the online parameters as they stand after the whole per-episode loop,
exactly one smoothing event is emitted and it is the last one, and the
target `requires_grad` flags (all `False`) are untouched, so no gradient
is recorded for the mutation. -/
theorem update_single_polyak_pass {E : Type} (g : GradOracle E) (polyak : ℚ)
    (t : Trainer) (batch : List E) (hne : batch ≠ []) :
    ∃ t' evs, update g polyak t batch = Except.ok (t', evs) ∧
      t'.target = polyakSmooth polyak t.target t'.online ∧
      countSmooth evs = 1 ∧
      evs.getLast? = some UpdEvent.targetSmooth ∧
      t'.targetReq = t.targetReq := by
  obtain ⟨h1, h2, h3, _, h5⟩ := updLoop_spec g batch t [] none
  have hsome : (updLoop g batch (t, [], none)).2.2.isSome = true :=
    h5 (Or.inr hne)
  obtain ⟨x, hx⟩ := Option.isSome_iff_exists.mp hsome
  refine ⟨{ (updLoop g batch (t, [], none)).1 with
      target := polyakSmooth polyak (updLoop g batch (t, [], none)).1.target
        (updLoop g batch (t, [], none)).1.online },
    (updLoop g batch (t, [], none)).2.1 ++ [UpdEvent.targetSmooth],
    ?_, ?_, ?_, ?_, ?_⟩
  · show update g polyak t batch = _
    unfold update
    simp only [hx]
  · show polyakSmooth polyak (updLoop g batch (t, [], none)).1.target
        (updLoop g batch (t, [], none)).1.online = _
    rw [h1]
  · rw [countSmooth_append, h3]
    rfl
  · simp
  · exact h2

/-- Witness for C2 at a concrete one-episode batch. -/
theorem update_single_polyak_pass_witness :
    ∃ t' evs,
      update (⟨fun o _ => o.map (· + 1), fun o _ => o, fun _ => 0,
          fun la _ => la, fun x => x⟩ : GradOracle Unit) (1/2)
          (initTrainer [4, 8] [0] [1] false) [()] = Except.ok (t', evs) ∧
      t'.target = polyakSmooth (1/2) (initTrainer [4, 8] [0] [1] false).target
        t'.online ∧
      countSmooth evs = 1 ∧
      evs.getLast? = some UpdEvent.targetSmooth ∧
      t'.targetReq = (initTrainer [4, 8] [0] [1] false).targetReq :=
  update_single_polyak_pass _ (1/2) _ [()] (by decide)

/-- C3: at initialization the target parameter set is an element-wise copy
of the online set (`copy.deepcopy`), every target parameter has
`requires_grad = False`, both optimizers hold exactly the online critic
resp. policy/memory parameter positions (so no target parameter is in any
optimizer), and across the operations of the embedding the target list is
only ever mutated by the final polyak pass of `update`: the per-episode
body leaves it untouched for arbitrary gradient oracles (the no-aliasing
guarantee of the deep copy), a failed `update` leaves it unchanged, and a
successful `update` changes it exactly by the smoothing formula. -/
theorem target_network_isolation (ac0 : List ℚ) (qIdx piIdx : List Nat)
    (ann : Bool) :
    (initTrainer ac0 qIdx piIdx ann).target = (initTrainer ac0 qIdx piIdx ann).online ∧
    (initTrainer ac0 qIdx piIdx ann).targetReq
      = List.replicate (initTrainer ac0 qIdx piIdx ann).target.length false ∧
    (initTrainer ac0 qIdx piIdx ann).qOptim = qIdx ∧
    (initTrainer ac0 qIdx piIdx ann).piOptim = piIdx ∧
    (∀ (E : Type) (g : GradOracle E) (t : Trainer) (ep : E),
      (updateEpisode g t ep).1.target = t.target ∧
      (updateEpisode g t ep).1.targetReq = t.targetReq) ∧
    (∀ (E : Type) (g : GradOracle E) (polyak : ℚ) (t : Trainer) (batch : List E),
      (∀ msg t', update g polyak t batch = Except.error (msg, t') →
        t'.target = t.target) ∧
      (∀ t' evs, update g polyak t batch = Except.ok (t', evs) →
        t'.target = polyakSmooth polyak t.target t'.online)) := by
  refine ⟨rfl, by simp [initTrainer], rfl, rfl, ?_, ?_⟩
  · intro E g t ep
    exact ⟨(updateEpisode_fields g t ep).1, (updateEpisode_fields g t ep).2.1⟩
  · intro E g polyak t batch
    obtain ⟨h1, _, _, _, _⟩ := updLoop_spec g batch t [] none
    constructor
    · intro msg t' herr
      unfold update at herr
      rcases hx : (updLoop g batch (t, [], none)).2.2 with _ | x
      · simp only [hx] at herr
        have : t' = (updLoop g batch (t, [], none)).1 :=
          (congrArg Prod.snd (Except.error.inj herr)).symm
        rw [this, h1]
      · simp only [hx] at herr
        exact absurd herr (by simp)
    · intro t' evs hok
      unfold update at hok
      rcases hx : (updLoop g batch (t, [], none)).2.2 with _ | x
      · simp only [hx] at hok
        exact absurd hok (by simp)
      · simp only [hx] at hok
        have ht' : t' = { (updLoop g batch (t, [], none)).1 with
            target := polyakSmooth polyak (updLoop g batch (t, [], none)).1.target
              (updLoop g batch (t, [], none)).1.online } :=
          (congrArg Prod.fst (Except.ok.inj hok)).symm
        rw [ht', ← h1]

/-- Witness for C3, exercising the two implication clauses at a concrete
failed call (empty batch) and a concrete successful call (one episode). -/
theorem target_network_isolation_witness :
    (∀ msg t',
      update (⟨fun o _ => o, fun o _ => o, fun _ => 0, fun la _ => la,
          fun x => x⟩ : GradOracle Unit) (3/4)
        (initTrainer [5, 7] [0] [1] true) [] = Except.error (msg, t') →
      t'.target = (initTrainer [5, 7] [0] [1] true).target) ∧
    (∀ t' evs,
      update (⟨fun o _ => o, fun o _ => o, fun _ => 0, fun la _ => la,
          fun x => x⟩ : GradOracle Unit) (3/4)
        (initTrainer [5, 7] [0] [1] true) [()] = Except.ok (t', evs) →
      t'.target = polyakSmooth (3/4) (initTrainer [5, 7] [0] [1] true).target
        t'.online) :=
  ⟨((target_network_isolation [5, 7] [0] [1] true).2.2.2.2.2 Unit _ (3/4) _ []).1,
   ((target_network_isolation [5, 7] [0] [1] true).2.2.2.2.2 Unit _ (3/4) _ [()]).2⟩

/-- Helper: `getD` of a `replicate` at its own element. -/
theorem getD_replicate_self {α : Type} (a : α) (n i : Nat) :
    (List.replicate n a).getD i a = a := by
  induction n generalizing i with
  | zero => simp
  | succ m ih =>
    cases i with
    | zero => rfl
    | succ j => exact ih j

/-- Helper: reading an all-`true` flag list at any index list gives all
`true`. -/
theorem map_getD_replicate (n : Nat) (l : List Nat) :
    l.map (fun i => (List.replicate n true).getD i true)
      = List.replicate l.length true := by
  induction l with
  | nil => rfl
  | cons x xs ih =>
    simp [getD_replicate_self, ih, List.replicate_succ]

/-- C4 (refuting evaluation): `self.q_params` is an `itertools.chain` — a
one-shot iterator — that `Adam(self.q_params, lr)` already exhausts in
`__init__` (sac.py lines 110, 119), so the freeze loop
`for p in self.q_params: p.requires_grad = False` (lines 234-235) and the
matching unfreeze loop (lines 247-248) in `update` iterate over nothing:
starting from the initial trainer state, at the moment
`loss_pi.backward()` runs every critic parameter still has
`requires_grad = True`, and the episode body never changes any online
`requires_grad` flag at all (the chain stays exhausted forever). -/
theorem update_freeze_unfreeze_noop (ac0 : List ℚ) (qIdx piIdx : List Nat)
    (ann : Bool) :
    (initTrainer ac0 qIdx piIdx ann).qChain = [] ∧
    (∀ (E : Type) (g : GradOracle E) (ep : E),
      (updateEpisode g (initTrainer ac0 qIdx piIdx ann) ep).2.1
        = [UpdEvent.criticOptStep,
           UpdEvent.policyBackward (List.replicate qIdx.length true),
           UpdEvent.policyOptStep]) ∧
    (∀ (E : Type) (g : GradOracle E) (t : Trainer) (ep : E),
      (updateEpisode g t ep).1.qChain = t.qChain ∧
      (t.qChain = [] → (updateEpisode g t ep).1.onlineReq = t.onlineReq)) := by
  refine ⟨rfl, ?_, ?_⟩
  · intro E g ep
    rw [updateEpisode_events]
    have h : (initTrainer ac0 qIdx piIdx ann).qIdx.map
        (fun i => (setReq (initTrainer ac0 qIdx piIdx ann).onlineReq
          (initTrainer ac0 qIdx piIdx ann).qChain false).getD i true)
        = List.replicate qIdx.length true := by
      show qIdx.map (fun i => (List.replicate ac0.length true).getD i true)
          = List.replicate qIdx.length true
      exact map_getD_replicate _ _
    rw [h]
  · intro E g t ep
    refine ⟨(updateEpisode_fields g t ep).2.2.2.1, ?_⟩
    intro hchain
    cases hann : t.useAnnealing <;> simp [updateEpisode, hann, hchain, setReq]

/-- Witness for C4, exercising the exhausted-chain clause at a concrete
trainer state. -/
theorem update_freeze_unfreeze_noop_witness :
    (updateEpisode (⟨fun o _ => o, fun o _ => o, fun _ => 0, fun la _ => la,
        fun x => x⟩ : GradOracle Unit)
      (initTrainer [1, 2, 3] [0, 1] [2] false) ()).1.onlineReq
      = (initTrainer [1, 2, 3] [0, 1] [2] false).onlineReq :=
  ((update_freeze_unfreeze_noop [1, 2, 3] [0, 1] [2] false).2.2 Unit _
    (initTrainer [1, 2, 3] [0, 1] [2] false) ()).2 rfl

/-- C10: on an empty sampled batch, `update` raises `NameError` at the
alpha-logging call (sac.py line 268) because the local `alpha_loss` is
only assigned inside the per-episode loop; control never reaches the
target-smoothing pass, so the trainer state at the raise — in particular
the target parameter list — is exactly the entry state; and for every
non-empty batch the read succeeds and `update` completes. -/
theorem update_empty_batch_error {E : Type} (g : GradOracle E) (polyak : ℚ)
    (t : Trainer) :
    update g polyak t ([] : List E)
      = Except.error ("NameError: alpha_loss is not defined", t) ∧
    (∀ batch : List E, batch ≠ [] →
      ∃ t' evs, update g polyak t batch = Except.ok (t', evs)) := by
  constructor
  · rfl
  · intro batch hne
    obtain ⟨_, _, _, _, h5⟩ := updLoop_spec g batch t [] none
    obtain ⟨x, hx⟩ := Option.isSome_iff_exists.mp (h5 (Or.inr hne))
    refine ⟨{ (updLoop g batch (t, [], none)).1 with
        target := polyakSmooth polyak (updLoop g batch (t, [], none)).1.target
          (updLoop g batch (t, [], none)).1.online },
      (updLoop g batch (t, [], none)).2.1 ++ [UpdEvent.targetSmooth], ?_⟩
    unfold update
    simp only [hx]

/-- Witness for C10 at a concrete non-empty batch. -/
theorem update_empty_batch_error_witness :
    ∃ t' evs,
      update (⟨fun o _ => o, fun o _ => o, fun _ => 0, fun la _ => la,
          fun x => x⟩ : GradOracle Unit) (1/2)
        (initTrainer [2, 6] [0] [1] false) [()] = Except.ok (t', evs) :=
  (update_empty_batch_error _ (1/2) _).2 [()] (by decide)

/-! ### Training rollout (`SAC.train_agent`, sac.py lines 345-418)

The environment is a deterministic machine over an abstract internal state
`σ`; stochasticity of `action_space.sample()` is determinized by indexing
the draw with the global step counter at the call.  The agent networks are
abstracted: `get_action(obs, prev_act, prev_rew, hidden, greedy=False)`
returns `(policyAct g ..., memoryStep g ...)` where `memoryStep` is the
recurrent-state output of the memory encoder and the index `g` (the global
step count) lets the functions stand for the network parameters as they
are at that moment of training, so interleaved `update` calls — which
touch only network/optimizer state, none of the rollout variables — are
absorbed into the abstraction.  Buffer interactions are recorded as an
append-only call log (`BufCall`), which `EpisodicBuffer.reset` does not
erase: the log records calls, not contents. -/

/-- Result of `env.step(a)`: `(o2, r, terminated, truncated)` plus the
successor internal environment state. -/
structure StepRes (σ Obs : Type) where
  env : σ
  o2 : Obs
  r : ℚ
  ter : Bool
  trunc : Bool

/-- A gym-style environment: `reset`, `step`, and
`action_space.sample()` (the latter reading a determinized draw index). -/
structure GymEnv (σ Obs : Type) where
  reset : σ → σ × Obs
  step : σ → Nat → StepRes σ Obs
  sample : σ → Nat → Nat

/-- The agent networks seen by the rollout: `memoryStep g o a2 r2 h` is the
recurrent state returned by `ac.explore`/`ac.act` (the memory encoder
output), `policyAct g o a2 r2 h` the stochastically sampled action
(`ac.explore`, i.e. `get_action` with `greedy=False`), and
`policyGreedy g o a2 r2 h` the deterministic action (`ac.act`, i.e.
`greedy=True`); the index `g` stands for the network parameters current at
global step `g`. -/
structure Agent (Obs : Type) where
  memoryStep : Nat → Obs → Nat → ℚ → List ℚ → List ℚ
  policyAct : Nat → Obs → Nat → ℚ → List ℚ → Nat
  policyGreedy : Nat → Obs → Nat → ℚ → List ℚ → Nat

/-- One stored transition, with the recurrent-state snapshots taken before
(`hid_in`) and after (`hid_out`) the step (sac.py lines 386-390). -/
structure Transition (Obs : Type) where
  obs : Obs
  obs2 : Obs
  act : Nat
  rew : ℚ
  done : Bool
  prev_act : Nat
  prev_rew : ℚ
  hid_in : List ℚ
  hid_out : List ℚ
deriving DecidableEq

/-- Append-only log of `EpisodicBuffer` calls made by the rollout;
`store` also records the global step count at the call. -/
inductive BufCall (Obs : Type) where
  | store (gstep : Nat) (t : Transition Obs)
  | finishPath
  | resetBuf
deriving DecidableEq

/-- Number of `finish_path` calls in a log. -/
def countFinish {Obs : Type} : List (BufCall Obs) → Nat
  | [] => 0
  | BufCall.finishPath :: rest => countFinish rest + 1
  | _ :: rest => countFinish rest

/-- The rollout variables of `train_agent`: environment state, current
observation `o`, `d`, `ep_len`, `ep_ret`, the RL^2 carry `a2`/`r2`
(previous action/reward), the hidden states `h_in`/`h_out`, the global
step counter, and the buffer call log. -/
structure LoopState (σ Obs : Type) where
  envS : σ
  o : Obs
  d : Bool
  epLen : Nat
  epRet : ℚ
  a2 : Nat
  r2 : ℚ
  hIn : List ℚ
  hOut : List ℚ
  globalSteps : Nat
  buf : List (BufCall Obs)
deriving DecidableEq

/-- Static configuration of the rollout. -/
structure Config where
  maxEpLen : Nat
  startSteps : Nat
  hiddenSize : Nat
  numTraj : Nat
  epochs : Nat
deriving DecidableEq

variable {σ : Type}

/-- The `while not(d or (ep_len == self.max_ep_len))` guard
(sac.py line 363), as the loop exit condition. -/
def stopB (cfg : Config) (s : LoopState σ Obs) : Bool :=
  s.d || decide (s.epLen = cfg.maxEpLen)

/-- Action selection of one rollout step (sac.py lines 365-374): after
`h_in = h_out`, either `get_action(o, a2, r2, h_in, greedy=False)` when
`self.global_steps > self.start_steps`, or a random
`env.action_space.sample()` that leaves `h_out` untouched. Returns the
chosen action and the new `h_out`. -/
def chosenAction (cfg : Config) (ag : Agent Obs) (env : GymEnv σ Obs)
    (s : LoopState σ Obs) : Nat × List ℚ :=
  if cfg.startSteps < s.globalSteps then
    (ag.policyAct s.globalSteps s.o s.a2 s.r2 s.hOut,
     ag.memoryStep s.globalSteps s.o s.a2 s.r2 s.hOut)
  else
    (env.sample s.envS s.globalSteps, s.hOut)

/-- The transition stored by one rollout step (sac.py lines 376-390):
`d = ter or trunc`, overridden to `False` when the incremented episode
length equals `max_ep_len` (line 384), stored together with the old
observation, the carry `(a2, r2)`, and the `(h_in, h_out)` snapshots. -/
def storedTransition (cfg : Config) (ag : Agent Obs) (env : GymEnv σ Obs)
    (s : LoopState σ Obs) : Transition Obs :=
  let ah := chosenAction cfg ag env s
  let res := env.step s.envS ah.1
  { obs := s.o
    obs2 := res.o2
    act := ah.1
    rew := res.r
    done := if s.epLen + 1 = cfg.maxEpLen then false else (res.ter || res.trunc)
    prev_act := s.a2
    prev_rew := s.r2
    hid_in := s.hOut
    hid_out := ah.2 }

/-- One iteration of the `while` body of `train_agent`
(sac.py lines 363-407): pick the action, step the environment, update
`d`/`ep_len`/`ep_ret`, store the transition, shift `o`/`r2`/`a2`, call
`finish_path` exactly when the (new) exit condition holds, and bump the
global step counter. -/
def trajStep (cfg : Config) (ag : Agent Obs) (env : GymEnv σ Obs)
    (s : LoopState σ Obs) : LoopState σ Obs :=
  let ah := chosenAction cfg ag env s
  let res := env.step s.envS ah.1
  let tr := storedTransition cfg ag env s
  let epLen := s.epLen + 1
  let buf1 := s.buf ++ [BufCall.store s.globalSteps tr]
  let buf2 := if tr.done || decide (epLen = cfg.maxEpLen) then
      buf1 ++ [BufCall.finishPath]
    else buf1
  { envS := res.env
    o := res.o2
    d := tr.done
    epLen := epLen
    epRet := s.epRet + res.r
    a2 := ah.1
    r2 := res.r
    hIn := s.hOut
    hOut := ah.2
    globalSteps := s.globalSteps + 1
    buf := buf2 }

/-- The `while` loop of one trajectory, with enough fuel to reach the exit
condition (`ep_len` grows by one per iteration and the guard stops at
`max_ep_len`). -/
def runTrajAux (cfg : Config) (ag : Agent Obs) (env : GymEnv σ Obs) :
    Nat → LoopState σ Obs → LoopState σ Obs
  | 0, s => s
  | fuel + 1, s =>
      if stopB cfg s then s
      else runTrajAux cfg ag env fuel (trajStep cfg ag env s)

/-- Trajectory initialization (sac.py lines 360-361):
`d, ep_ret, ep_len = False, 0, 0` and `o, info = self.env.reset()`.
The carry `a2`/`r2` and the hidden states are NOT touched here. -/
def trajInit (env : GymEnv σ Obs) (s : LoopState σ Obs) : LoopState σ Obs :=
  let ro := env.reset s.envS
  { s with envS := ro.1, o := ro.2, d := false, epLen := 0, epRet := 0 }

/-- One full trajectory: initialization followed by the `while` loop. -/
def runTraj (cfg : Config) (ag : Agent Obs) (env : GymEnv σ Obs)
    (s : LoopState σ Obs) : LoopState σ Obs :=
  runTrajAux cfg ag env (cfg.maxEpLen + 1) (trajInit env s)

/-- The `for tr in range(self.number_of_trajectories)` loop
(sac.py lines 359-413), returning the final state together with the list
of per-trajectory start states (the state as the `while` loop is entered,
i.e. right after `trajInit`).  The interleaved `update()` calls touch only
network/optimizer state and are absorbed into the `Agent` abstraction. -/
def runTrajectories (cfg : Config) (ag : Agent Obs) (env : GymEnv σ Obs) :
    Nat → LoopState σ Obs → LoopState σ Obs × List (LoopState σ Obs)
  | 0, s => (s, [])
  | n + 1, s =>
      let s0 := trajInit env s
      let s1 := runTrajAux cfg ag env (cfg.maxEpLen + 1) s0
      let rest := runTrajectories cfg ag env n s1
      (rest.1, s0 :: rest.2)

/-- Epoch initialization (sac.py lines 354-356): the hidden states are
reset to zero vectors.  The carry `a2`/`r2` is NOT reset here. -/
def epochInit (cfg : Config) (s : LoopState σ Obs) : LoopState σ Obs :=
  { s with hIn := List.replicate cfg.hiddenSize 0,
           hOut := List.replicate cfg.hiddenSize 0 }

/-- The `for epoch in range(self.epochs)` loop (sac.py lines 353-418):
zero the hidden states, run the trajectories, then `self.buffer.reset()`.
Returns the final state and, per epoch, the trajectory start states. -/
def runEpochs (cfg : Config) (ag : Agent Obs) (env : GymEnv σ Obs) :
    Nat → LoopState σ Obs → LoopState σ Obs × List (List (LoopState σ Obs))
  | 0, s => (s, [])
  | n + 1, s =>
      let s0 := epochInit cfg s
      let r1 := runTrajectories cfg ag env cfg.numTraj s0
      let s2 : LoopState σ Obs := { r1.1 with buf := r1.1.buf ++ [BufCall.resetBuf] }
      let rest := runEpochs cfg ag env n s2
      (rest.1, r1.2 :: rest.2)

/-- Embedding of `SAC.train_agent` (sac.py lines 345-418): the carry is
initialized once (`a2, r2 = 0, 0`, line 351) before the epoch loop; the
initial observation is arbitrary (it is overwritten by the first
`env.reset`). -/
def train_agent (cfg : Config) (ag : Agent Obs) (env : GymEnv σ Obs)
    (e0 : σ) (o0 : Obs) : LoopState σ Obs × List (List (LoopState σ Obs)) :=
  runEpochs cfg ag env cfg.epochs
    { envS := e0, o := o0, d := false, epLen := 0, epRet := 0,
      a2 := 0, r2 := 0, hIn := [], hOut := [], globalSteps := 0, buf := [] }

/-! ### Evaluation (`SAC.test_agent`, sac.py lines 298-343)

`test_agent(test_env, num_test_episodes, random_init, greedy_ratio)`
stores its argument as `self.test_env` and calls `self.test_env.reset()`
per episode, but every `action_space.sample()` and every `step(a)` — in
the warm-up loop (lines 314-317) and in the evaluation `while` loop
(line 326) — is invoked on `self.env`, the training environment.  The
embedding keeps both environments (over internal state types `σ` for the
training one and `τ` for the held-out one) and records every interaction
in an event trace.  The per-step draw `np.random.random() > greedy_ratio`
is determinized as a Boolean stream indexed by a draw counter, and
network calls use the parameters current at call time (index `0`). -/

/-- One environment interaction of `test_agent`, tagged with which
environment was used. -/
inductive TestEvent where
  | resetTest
  | sampleTrain
  | stepTrain (a : Nat)
  | stepTest (a : Nat)
deriving DecidableEq

variable {τ : Type}

/-- The local state of `test_agent`: both environment states, the current
observation `o`, hidden state `h`, carry `a2`/`r2`, `d`, `ep_len`, a draw
counter, the returned observation/reward traces, and the interaction
trace. -/
structure TestState (σ τ Obs : Type) where
  trainEnv : σ
  testEnv : τ
  o : Obs
  h : List ℚ
  a2 : Nat
  r2 : ℚ
  d : Bool
  epLen : Nat
  rng : Nat
  obsTrace : List Obs
  rewTrace : List ℚ
  events : List TestEvent
deriving DecidableEq

/-- One iteration of the evaluation `while` loop (sac.py lines 319-338):
draw the greedy/stochastic choice, call `get_action`, then
`self.env.step(a)` — the TRAINING environment — and append the resulting
observation and reward to the returned traces. -/
def testStep (ag : Agent Obs) (trainE : GymEnv σ Obs)
    (greedyStream : Nat → Bool) (s : TestState σ τ Obs) : TestState σ τ Obs :=
  let greedy := greedyStream s.rng
  let a := if greedy then ag.policyGreedy 0 s.o s.a2 s.r2 s.h
           else ag.policyAct 0 s.o s.a2 s.r2 s.h
  let h2 := ag.memoryStep 0 s.o s.a2 s.r2 s.h
  let res := trainE.step s.trainEnv a
  { s with
    trainEnv := res.env
    o := res.o2
    h := h2
    a2 := a
    r2 := res.r
    d := res.ter || res.trunc
    epLen := s.epLen + 1
    rng := s.rng + 1
    obsTrace := s.obsTrace ++ [res.o2]
    rewTrace := s.rewTrace ++ [res.r]
    events := s.events ++ [TestEvent.stepTrain a] }

/-- The random warm-up loop (sac.py lines 314-317): `random_init` times,
sample and step `self.env` — the TRAINING environment — discarding the
results (`o`, `d`, `ep_len` are not touched). -/
def testWarmup (trainE : GymEnv σ Obs) :
    Nat → TestState σ τ Obs → TestState σ τ Obs
  | 0, s => s
  | n + 1, s =>
      let a := trainE.sample s.trainEnv s.rng
      let res := trainE.step s.trainEnv a
      testWarmup trainE n
        { s with
          trainEnv := res.env
          rng := s.rng + 1
          events := s.events ++ [TestEvent.sampleTrain, TestEvent.stepTrain a] }

/-- The evaluation `while` loop with fuel (the guard mirrors
`while not(d or (ep_len == self.max_ep_len))`, line 319). -/
def testWhile (cfg : Config) (ag : Agent Obs) (trainE : GymEnv σ Obs)
    (greedyStream : Nat → Bool) :
    Nat → TestState σ τ Obs → TestState σ τ Obs
  | 0, s => s
  | fuel + 1, s =>
      if s.d || decide (s.epLen = cfg.maxEpLen) then s
      else testWhile cfg ag trainE greedyStream fuel
        (testStep ag trainE greedyStream s)

/-- One evaluated episode (sac.py lines 305-340): reset the HELD-OUT
environment (`self.test_env.reset()`, line 306), reset `d`/`ep_len`, run
the warm-up, then run the `while` loop. -/
def testEpisode (cfg : Config) (ag : Agent Obs) (trainE : GymEnv σ Obs)
    (testE : GymEnv τ Obs) (greedyStream : Nat → Bool) (randomInit : Nat)
    (s : TestState σ τ Obs) : TestState σ τ Obs :=
  let ro := testE.reset s.testEnv
  let s0 : TestState σ τ Obs :=
    { s with testEnv := ro.1, o := ro.2, d := false, epLen := 0,
             events := s.events ++ [TestEvent.resetTest] }
  let s1 := testWarmup trainE randomInit s0
  testWhile cfg ag trainE greedyStream (cfg.maxEpLen + 1) s1

/-- The `for ep in range(num_test_episodes)` loop. -/
def testLoop (cfg : Config) (ag : Agent Obs) (trainE : GymEnv σ Obs)
    (testE : GymEnv τ Obs) (greedyStream : Nat → Bool) (randomInit : Nat) :
    Nat → TestState σ τ Obs → TestState σ τ Obs
  | 0, s => s
  | n + 1, s =>
      testLoop cfg ag trainE testE greedyStream randomInit n
        (testEpisode cfg ag trainE testE greedyStream randomInit s)

/-- Embedding of `SAC.test_agent` (sac.py lines 298-343): the hidden state
is zeroed and the carry set to `(0, 0)` once at entry (lines 300-303),
then the episode loop runs. -/
def test_agent (cfg : Config) (ag : Agent Obs) (trainE : GymEnv σ Obs)
    (testE : GymEnv τ Obs) (greedyStream : Nat → Bool)
    (numEp randomInit : Nat) (e0 : σ) (t0 : τ) (o0 : Obs) :
    TestState σ τ Obs :=
  testLoop cfg ag trainE testE greedyStream randomInit numEp
    { trainEnv := e0, testEnv := t0, o := o0,
      h := List.replicate cfg.hiddenSize 0, a2 := 0, r2 := 0, d := false,
      epLen := 0, rng := 0, obsTrace := [], rewTrace := [], events := [] }

/-- Number of interactions addressed to the held-out test environment
other than `reset` (the code never emits any). -/
def countTestSteps : List TestEvent → Nat
  | [] => 0
  | TestEvent.stepTest _ :: rest => countTestSteps rest + 1
  | _ :: rest => countTestSteps rest

/-- C6: the transition appended by a rollout step is stored with
`done = False` when the incremented episode length equals `max_ep_len` —
even if the environment reported `terminated` or `truncated` on that step
— and with `done = (terminated or truncated)` on every earlier step
(sac.py lines 376-390). -/
theorem stored_done_matches_truncation_rule (cfg : Config) (ag : Agent Obs)
    (env : GymEnv σ Obs) (s : LoopState σ Obs) :
    (∃ rest, (trajStep cfg ag env s).buf
      = s.buf ++ BufCall.store s.globalSteps (storedTransition cfg ag env s) :: rest) ∧
    (s.epLen + 1 = cfg.maxEpLen → (storedTransition cfg ag env s).done = false) ∧
    (s.epLen + 1 ≠ cfg.maxEpLen →
      (storedTransition cfg ag env s).done
        = ((env.step s.envS (chosenAction cfg ag env s).1).ter
            || (env.step s.envS (chosenAction cfg ag env s).1).trunc)) := by
  refine ⟨?_, ?_, ?_⟩
  · by_cases hc : ((storedTransition cfg ag env s).done
        || decide (s.epLen + 1 = cfg.maxEpLen)) = true
    · exact ⟨[BufCall.finishPath], by simp [trajStep, hc]⟩
    · exact ⟨[], by simp [trajStep, hc]⟩
  · intro h
    simp [storedTransition, h]
  · intro h
    simp [storedTransition, h]

/-- Witness for C6: a step that hits the length cap while the environment
terminates stores `done = false`; a step strictly before the cap stores
the environment's flag. -/
theorem stored_done_matches_truncation_rule_witness :
    (storedTransition (⟨1, 9, 1, 1, 1⟩ : Config)
        (⟨fun _ _ _ _ h => h, fun _ _ _ _ _ => 0, fun _ _ _ _ _ => 0⟩ : Agent Unit)
        (⟨fun s => (s, ()), fun s _ => ⟨s, (), 1, true, false⟩,
          fun _ _ => 0⟩ : GymEnv Unit Unit)
        { envS := (), o := (), d := false, epLen := 0, epRet := 0, a2 := 0,
          r2 := 0, hIn := [0], hOut := [0], globalSteps := 0,
          buf := [] }).done = false ∧
    (storedTransition (⟨4, 9, 1, 1, 1⟩ : Config)
        (⟨fun _ _ _ _ h => h, fun _ _ _ _ _ => 0, fun _ _ _ _ _ => 0⟩ : Agent Unit)
        (⟨fun s => (s, ()), fun s _ => ⟨s, (), 1, true, false⟩,
          fun _ _ => 0⟩ : GymEnv Unit Unit)
        { envS := (), o := (), d := false, epLen := 0, epRet := 0, a2 := 0,
          r2 := 0, hIn := [0], hOut := [0], globalSteps := 0,
          buf := [] }).done = true :=
  ⟨(stored_done_matches_truncation_rule _ _ _ _).2.1 (by decide),
   by
    rw [(stored_done_matches_truncation_rule _ _ _ _).2.2 (by decide)]
    decide⟩

/-- Helper: `countFinish` is additive over append. -/
theorem countFinish_append (l1 l2 : List (BufCall Obs)) :
    countFinish (l1 ++ l2) = countFinish l1 + countFinish l2 := by
  induction l1 with
  | nil => simp [countFinish]
  | cons e rest ih =>
    cases e <;> simp [countFinish, ih]
    omega

/-- Helper: the loop guard evaluated on the successor state coincides with
the `finish_path` condition of the step that produced it. -/
theorem stopB_trajStep (cfg : Config) (ag : Agent Obs) (env : GymEnv σ Obs)
    (s : LoopState σ Obs) :
    stopB cfg (trajStep cfg ag env s)
      = ((storedTransition cfg ag env s).done
          || decide (s.epLen + 1 = cfg.maxEpLen)) := rfl

/-- Helper: the buffer log after one step, by cases on the exit
condition. -/
theorem trajStep_buf (cfg : Config) (ag : Agent Obs) (env : GymEnv σ Obs)
    (s : LoopState σ Obs) :
    (trajStep cfg ag env s).buf
      = if stopB cfg (trajStep cfg ag env s)
        then s.buf ++ [BufCall.store s.globalSteps (storedTransition cfg ag env s),
                       BufCall.finishPath]
        else s.buf ++ [BufCall.store s.globalSteps (storedTransition cfg ag env s)] := by
  rw [stopB_trajStep]
  by_cases hc : ((storedTransition cfg ag env s).done
      || decide (s.epLen + 1 = cfg.maxEpLen)) = true
  · simp [trajStep, hc]
  · simp only [Bool.not_eq_true] at hc
    simp [trajStep, hc]

/-- Helper: a state satisfying the guard leaves the `while` loop
unchanged. -/
theorem runTrajAux_stop (cfg : Config) (ag : Agent Obs) (env : GymEnv σ Obs)
    (fuel : Nat) (s : LoopState σ Obs) (h : stopB cfg s = true) :
    runTrajAux cfg ag env fuel s = s := by
  cases fuel with
  | zero => rfl
  | succ f => simp [runTrajAux, h]

/-- Helper: `epLen` grows by one per step. -/
theorem trajStep_epLen (cfg : Config) (ag : Agent Obs) (env : GymEnv σ Obs)
    (s : LoopState σ Obs) :
    (trajStep cfg ag env s).epLen = s.epLen + 1 := rfl

/-- Helper: a trajectory's `while` loop, entered below the length cap with
enough fuel, terminates in a state satisfying the guard, having appended
exactly one `finish_path` call, as the last call of the log. -/
theorem runTrajAux_finish (cfg : Config) (ag : Agent Obs)
    (env : GymEnv σ Obs) :
    ∀ (fuel : Nat) (s : LoopState σ Obs),
      stopB cfg s = false → s.epLen ≤ cfg.maxEpLen →
      cfg.maxEpLen - s.epLen ≤ fuel →
      stopB cfg (runTrajAux cfg ag env fuel s) = true ∧
      countFinish (runTrajAux cfg ag env fuel s).buf = countFinish s.buf + 1 ∧
      (runTrajAux cfg ag env fuel s).buf.getLast? = some BufCall.finishPath := by
  intro fuel
  induction fuel with
  | zero =>
    intro s hstop hle hfuel
    exfalso
    simp only [stopB, Bool.or_eq_false_iff, decide_eq_false_iff_not] at hstop
    omega
  | succ f ih =>
    intro s hstop hle hfuel
    have hne : s.epLen ≠ cfg.maxEpLen := by
      simp only [stopB, Bool.or_eq_false_iff, decide_eq_false_iff_not] at hstop
      exact hstop.2
    have hrun : runTrajAux cfg ag env (f + 1) s
        = runTrajAux cfg ag env f (trajStep cfg ag env s) := by
      simp [runTrajAux, hstop]
    by_cases hstop2 : stopB cfg (trajStep cfg ag env s) = true
    · rw [hrun, runTrajAux_stop cfg ag env f _ hstop2]
      refine ⟨hstop2, ?_, ?_⟩
      · rw [trajStep_buf, if_pos hstop2, countFinish_append]
        simp [countFinish]
      · rw [trajStep_buf, if_pos hstop2]
        simp
    · simp only [Bool.not_eq_true] at hstop2
      have h1 := trajStep_epLen cfg ag env s
      have h2 : (trajStep cfg ag env s).epLen ≤ cfg.maxEpLen := by
        have : (trajStep cfg ag env s).epLen ≠ cfg.maxEpLen := by
          simp only [stopB, Bool.or_eq_false_iff, decide_eq_false_iff_not] at hstop2
          exact hstop2.2
        omega
      have h3 : cfg.maxEpLen - (trajStep cfg ag env s).epLen ≤ f := by omega
      obtain ⟨ih1, ih2, ih3⟩ := ih (trajStep cfg ag env s) hstop2 h2 h3
      rw [hrun]
      refine ⟨ih1, ?_, ih3⟩
      rw [ih2, trajStep_buf, if_neg (by simp [hstop2]), countFinish_append]
      simp [countFinish]

/-- Helper: `trajInit` keeps the buffer log and produces a state below the
guard whenever the length cap is positive. -/
theorem trajInit_fields (env : GymEnv σ Obs) (s : LoopState σ Obs) :
    (trajInit env s).buf = s.buf ∧ (trajInit env s).epLen = 0 ∧
    (trajInit env s).d = false ∧ (trajInit env s).hOut = s.hOut ∧
    (trajInit env s).hIn = s.hIn ∧ (trajInit env s).a2 = s.a2 ∧
    (trajInit env s).r2 = s.r2 :=
  ⟨rfl, rfl, rfl, rfl, rfl, rfl, rfl⟩

/-- Helper: each trajectory of the inner `for` loop contributes exactly one
`finish_path` call. -/
theorem runTrajectories_count (cfg : Config) (ag : Agent Obs)
    (env : GymEnv σ Obs) (hmax : 1 ≤ cfg.maxEpLen) :
    ∀ (n : Nat) (s : LoopState σ Obs),
      countFinish (runTrajectories cfg ag env n s).1.buf
        = countFinish s.buf + n := by
  intro n
  induction n with
  | zero => intro s; rfl
  | succ m ih =>
    intro s
    have hstop : stopB cfg (trajInit env s) = false := by
      simp only [stopB, (trajInit_fields env s).2.2.1, (trajInit_fields env s).2.1,
        Bool.false_or, decide_eq_false_iff_not]
      omega
    obtain ⟨_, hcount, _⟩ := runTrajAux_finish cfg ag env (cfg.maxEpLen + 1)
      (trajInit env s) hstop (by rw [(trajInit_fields env s).2.1]; omega)
      (by rw [(trajInit_fields env s).2.1]; omega)
    show countFinish (runTrajectories cfg ag env m
        (runTrajAux cfg ag env (cfg.maxEpLen + 1) (trajInit env s))).1.buf = _
    rw [ih, hcount, (trajInit_fields env s).1]
    omega

/-- C8: a trajectory run by the training loop calls `finish_path` exactly
once — as the last buffer call, issued exactly at the step after which the
exit condition `done or ep_len == max_ep_len` holds — and across the inner
`for` loop the number of `finish_path` calls equals the number of
trajectories run, for any positive episode-length cap (a zero cap would
run no steps at all). -/
theorem finish_path_exactly_once (cfg : Config) (ag : Agent Obs)
    (env : GymEnv σ Obs) (s : LoopState σ Obs) (hmax : 1 ≤ cfg.maxEpLen) :
    countFinish (runTraj cfg ag env s).buf = countFinish s.buf + 1 ∧
    (runTraj cfg ag env s).buf.getLast? = some BufCall.finishPath ∧
    ((runTraj cfg ag env s).d = true ∨ (runTraj cfg ag env s).epLen = cfg.maxEpLen) ∧
    (∀ n, countFinish (runTrajectories cfg ag env n s).1.buf
      = countFinish s.buf + n) := by
  have hstop : stopB cfg (trajInit env s) = false := by
    simp only [stopB, (trajInit_fields env s).2.2.1, (trajInit_fields env s).2.1,
      Bool.false_or, decide_eq_false_iff_not]
    omega
  obtain ⟨h1, h2, h3⟩ := runTrajAux_finish cfg ag env (cfg.maxEpLen + 1)
    (trajInit env s) hstop (by rw [(trajInit_fields env s).2.1]; omega)
    (by rw [(trajInit_fields env s).2.1]; omega)
  refine ⟨?_, h3, ?_, fun n => runTrajectories_count cfg ag env hmax n s⟩
  · show countFinish (runTrajAux cfg ag env (cfg.maxEpLen + 1) (trajInit env s)).buf = _
    rw [h2, (trajInit_fields env s).1]
  · show (runTrajAux cfg ag env (cfg.maxEpLen + 1) (trajInit env s)).d = true ∨ _
    simpa [stopB] using h1

/-- Witness for C8 on a degenerate one-step environment-terminated
trajectory. -/
theorem finish_path_exactly_once_witness :
    countFinish (runTraj (⟨3, 9, 1, 1, 1⟩ : Config)
        (⟨fun _ _ _ _ h => h, fun _ _ _ _ _ => 0, fun _ _ _ _ _ => 0⟩ : Agent Unit)
        (⟨fun s => (s, ()), fun s _ => ⟨s, (), 1, true, false⟩,
          fun _ _ => 0⟩ : GymEnv Unit Unit)
        { envS := (), o := (), d := false, epLen := 0, epRet := 0, a2 := 0,
          r2 := 0, hIn := [0], hOut := [0], globalSteps := 0, buf := [] }).buf
      = countFinish ([] : List (BufCall Unit)) + 1 :=
  (finish_path_exactly_once _ _ _ _ (by decide)).1

/-- The recurrent-consistency property of one buffer call: a stored
transition carries `hid_out` equal to the memory encoder output on
`(obs, prev_act, prev_rew, hid_in)` when the step used the learned policy
(`global_steps > start_steps`), and carries `hid_out = hid_in` when the
step used a random warm-up action (the encoder is not invoked then,
sac.py lines 370-374). -/
def HidConsistent (cfg : Config) (ag : Agent Obs) : BufCall Obs → Prop
  | BufCall.store g t =>
      (cfg.startSteps < g →
        t.hid_out = ag.memoryStep g t.obs t.prev_act t.prev_rew t.hid_in) ∧
      (¬ cfg.startSteps < g → t.hid_out = t.hid_in)
  | _ => True

/-- Helper: the freshly stored transition satisfies the recurrent
consistency property. -/
theorem storedTransition_hid (cfg : Config) (ag : Agent Obs)
    (env : GymEnv σ Obs) (s : LoopState σ Obs) :
    HidConsistent cfg ag
      (BufCall.store s.globalSteps (storedTransition cfg ag env s)) := by
  by_cases h : cfg.startSteps < s.globalSteps
  · exact ⟨fun _ => by simp [storedTransition, chosenAction, h],
           fun hn => absurd h hn⟩
  · exact ⟨fun hn => absurd hn h,
           fun _ => by simp [storedTransition, chosenAction, h]⟩

/-- Helper: one rollout step preserves recurrent consistency of the whole
log. -/
theorem trajStep_hid (cfg : Config) (ag : Agent Obs) (env : GymEnv σ Obs)
    (s : LoopState σ Obs) (h : ∀ e ∈ s.buf, HidConsistent cfg ag e) :
    ∀ e ∈ (trajStep cfg ag env s).buf, HidConsistent cfg ag e := by
  intro e he
  rw [trajStep_buf] at he
  split at he
  · rcases List.mem_append.mp he with h1 | h2
    · exact h e h1
    · simp only [List.mem_cons, List.not_mem_nil, or_false] at h2
      rcases h2 with h2 | h2
      · exact h2 ▸ storedTransition_hid cfg ag env s
      · exact h2 ▸ trivial
  · rcases List.mem_append.mp he with h1 | h2
    · exact h e h1
    · simp only [List.mem_cons, List.not_mem_nil, or_false] at h2
      exact h2 ▸ storedTransition_hid cfg ag env s

/-- Helper: the trajectory `while` loop preserves recurrent consistency. -/
theorem runTrajAux_hid (cfg : Config) (ag : Agent Obs) (env : GymEnv σ Obs) :
    ∀ (fuel : Nat) (s : LoopState σ Obs),
      (∀ e ∈ s.buf, HidConsistent cfg ag e) →
      ∀ e ∈ (runTrajAux cfg ag env fuel s).buf, HidConsistent cfg ag e := by
  intro fuel
  induction fuel with
  | zero => intro s h; exact h
  | succ f ih =>
    intro s h
    by_cases hc : stopB cfg s = true
    · rw [runTrajAux_stop cfg ag env _ s hc]; exact h
    · simp only [Bool.not_eq_true] at hc
      show ∀ e ∈ (runTrajAux cfg ag env (f + 1) s).buf, _
      have : runTrajAux cfg ag env (f + 1) s
          = runTrajAux cfg ag env f (trajStep cfg ag env s) := by
        simp [runTrajAux, hc]
      rw [this]
      exact ih (trajStep cfg ag env s) (trajStep_hid cfg ag env s h)

/-- Helper: the inner trajectory loop preserves recurrent consistency. -/
theorem runTrajectories_hid (cfg : Config) (ag : Agent Obs)
    (env : GymEnv σ Obs) :
    ∀ (n : Nat) (s : LoopState σ Obs),
      (∀ e ∈ s.buf, HidConsistent cfg ag e) →
      ∀ e ∈ (runTrajectories cfg ag env n s).1.buf, HidConsistent cfg ag e := by
  intro n
  induction n with
  | zero => intro s h; exact h
  | succ m ih =>
    intro s h
    exact ih _ (runTrajAux_hid cfg ag env (cfg.maxEpLen + 1) (trajInit env s) h)

/-- Helper: the epoch loop preserves recurrent consistency (the
`buffer.reset()` log entry is not a store). -/
theorem runEpochs_hid (cfg : Config) (ag : Agent Obs) (env : GymEnv σ Obs) :
    ∀ (n : Nat) (s : LoopState σ Obs),
      (∀ e ∈ s.buf, HidConsistent cfg ag e) →
      ∀ e ∈ (runEpochs cfg ag env n s).1.buf, HidConsistent cfg ag e := by
  intro n
  induction n with
  | zero => intro s h; exact h
  | succ m ih =>
    intro s h
    refine ih _ ?_
    intro e he
    rcases List.mem_append.mp he with h1 | h2
    · exact runTrajectories_hid cfg ag env cfg.numTraj (epochInit cfg s) h e h1
    · simp only [List.mem_cons, List.not_mem_nil, or_false] at h2
      exact h2 ▸ trivial

/-- C7 (amended): every transition stored by the training loop is
hidden-consistent with the step that selected its action: when the learned
policy chose the action (`global_steps > start_steps`), `hidden_out` is
the memory encoder's output on `(obs, prev_action, prev_reward,
hidden_in)`; during the random warm-up phase the encoder is not invoked
and the stored `hidden_out` equals `hidden_in` (the recurrent state does
not advance). -/
theorem stored_hidden_consistency (cfg : Config) (ag : Agent Obs)
    (env : GymEnv σ Obs) (e0 : σ) (o0 : Obs) :
    ∀ (g : Nat) (t : Transition Obs),
      BufCall.store g t ∈ (train_agent cfg ag env e0 o0).1.buf →
      (cfg.startSteps < g →
        t.hid_out = ag.memoryStep g t.obs t.prev_act t.prev_rew t.hid_in) ∧
      (¬ cfg.startSteps < g → t.hid_out = t.hid_in) := by
  intro g t hmem
  have h := runEpochs_hid cfg ag env cfg.epochs
    { envS := e0, o := o0, d := false, epLen := 0, epRet := 0,
      a2 := 0, r2 := 0, hIn := [], hOut := [], globalSteps := 0, buf := [] }
    (by intro e he; simp at he) _ hmem
  exact h

/-- Environment used by the C7 run: it terminates on every step with zero
reward. -/
def hidCexEnv : GymEnv Unit Unit :=
  ⟨fun s => (s, ()), fun s _ => ⟨s, (), 0, true, false⟩, fun _ _ => 0⟩

/-- Agent used by the C7 run: the memory encoder prepends a `1` to the
hidden state, so its output never equals its input. -/
def hidCexAgent : Agent Unit :=
  ⟨fun _ _ _ _ h => 1 :: h, fun _ _ _ _ _ => 0, fun _ _ _ _ _ => 0⟩

/-- Configuration for the C7 run: one epoch, one trajectory, cap 1, and a
warm-up threshold that keeps the whole run in the random phase. -/
def hidCexCfg : Config := ⟨1, 5, 1, 1, 1⟩

/-- Checker for the claim as stated: every stored transition's `hid_out`
equals the memory encoder output for that step, warm-up included. -/
def storeEncoderB {Obs : Type} [DecidableEq Obs] (ag : Agent Obs) :
    BufCall Obs → Bool
  | BufCall.store g t =>
      decide (t.hid_out = ag.memoryStep g t.obs t.prev_act t.prev_rew t.hid_in)
  | _ => true

/-- Counterexample to C7 as stated: during the random warm-up phase the
code stores `hid_out = hid_in` without running the encoder, so on an
encoder whose output differs from its input the stored pair does not
reflect the encoder evolution. -/
theorem warmup_hidden_counterexample :
    ¬ ((train_agent hidCexCfg hidCexAgent hidCexEnv () ()).1.buf.all
        (storeEncoderB hidCexAgent) = true) := by
  decide

/-- Witness for C7 (amended) on the warm-up store of the same concrete
run. -/
theorem stored_hidden_consistency_witness :
    (⟨(), (), 0, 0, false, 0, 0, [0], [0]⟩ : Transition Unit).hid_out
      = (⟨(), (), 0, 0, false, 0, 0, [0], [0]⟩ : Transition Unit).hid_in :=
  (stored_hidden_consistency hidCexCfg hidCexAgent hidCexEnv () () 0
    ⟨(), (), 0, 0, false, 0, 0, [0], [0]⟩ (by decide)).2 (by decide)

/-- Environment used for the C5 run: one step with reward `1`, then
termination. -/
def carryCexEnv : GymEnv Unit Unit :=
  ⟨fun s => (s, ()), fun s _ => ⟨s, (), 1, true, false⟩, fun _ _ => 0⟩

/-- Agent used for the C5 run (never consulted: the warm-up threshold is
never exceeded). -/
def carryCexAgent : Agent Unit :=
  ⟨fun _ _ _ _ h => h, fun _ _ _ _ _ => 0, fun _ _ _ _ _ => 0⟩

/-- Configuration for the C5 run: one epoch of two trajectories. -/
def carryCexCfg : Config := ⟨5, 1000, 1, 2, 1⟩

/-- Counterexample to C5 as stated: at the start of the second trajectory
the previous-reward carry still holds the reward of the first
trajectory's final step (`a2, r2 = 0, 0` runs once, before the epoch
loop, sac.py line 351, and the hidden reset is per epoch, lines 354-356 —
neither is per trajectory). -/
theorem traj_start_carry_counterexample :
    ¬ (∀ l ∈ (train_agent carryCexCfg carryCexAgent carryCexEnv () ()).2,
        ∀ st ∈ l,
          st.hOut = List.replicate carryCexCfg.hiddenSize 0 ∧
          st.a2 = 0 ∧ st.r2 = 0) := by
  decide

/-- Helper: the first trajectory start of the inner loop is the state
right after `trajInit`. -/
theorem runTrajectories_head (cfg : Config) (ag : Agent Obs)
    (env : GymEnv σ Obs) (n : Nat) (s : LoopState σ Obs) :
    ∀ st, (runTrajectories cfg ag env n s).2.head? = some st →
      st = trajInit env s := by
  cases n with
  | zero => intro st h; exact absurd h (by simp [runTrajectories])
  | succ m =>
    intro st h
    simp only [runTrajectories, List.head?_cons, Option.some.injEq] at h
    exact h.symm

/-- Helper: in every epoch of the epoch loop, the first trajectory starts
with both hidden states equal to the zero vector (they were zeroed at the
epoch start and `trajInit` does not touch them). -/
theorem runEpochs_first_start (cfg : Config) (ag : Agent Obs)
    (env : GymEnv σ Obs) :
    ∀ (n : Nat) (s : LoopState σ Obs),
      ∀ l ∈ (runEpochs cfg ag env n s).2, ∀ st, l.head? = some st →
        st.hOut = List.replicate cfg.hiddenSize 0 ∧
        st.hIn = List.replicate cfg.hiddenSize 0 := by
  intro n
  induction n with
  | zero => intro s l hl; exact absurd hl (by simp [runEpochs])
  | succ m ih =>
    intro s l hl st hst
    rcases List.mem_cons.mp hl with h1 | h2
    · have := runTrajectories_head cfg ag env cfg.numTraj (epochInit cfg s) st
        (h1 ▸ hst)
      rw [this]
      exact ⟨rfl, rfl⟩
    · exact ih _ l h2 st hst

/-- C5 (amended): the recurrent state is zeroed at the start of every
EPOCH of the training loop (so each epoch's first trajectory starts from
the zero vector, while later trajectories of the same epoch inherit the
previous trajectory's recurrent state), the `(prev_action, prev_reward)`
carry is initialized to `(0, 0)` once at `train_agent` entry (so only the
very first trajectory is guaranteed a fresh carry), and `test_agent`
zeroes its recurrent state and carry once at entry, not per evaluated
episode. -/
theorem recurrent_reset_per_epoch {τ : Type} (cfg : Config) (ag : Agent Obs)
    (env : GymEnv σ Obs) (e0 : σ) (o0 : Obs) (trainE : GymEnv σ Obs)
    (testE : GymEnv τ Obs) (gs : Nat → Bool) (rInit : Nat) (t0 : τ) :
    (∀ l ∈ (train_agent cfg ag env e0 o0).2, ∀ st, l.head? = some st →
      st.hOut = List.replicate cfg.hiddenSize 0 ∧
      st.hIn = List.replicate cfg.hiddenSize 0) ∧
    (∀ l st, (train_agent cfg ag env e0 o0).2.head? = some l →
      l.head? = some st → st.a2 = 0 ∧ st.r2 = 0) ∧
    ((test_agent cfg ag trainE testE gs 0 rInit e0 t0 o0).h
        = List.replicate cfg.hiddenSize 0 ∧
      (test_agent cfg ag trainE testE gs 0 rInit e0 t0 o0).a2 = 0 ∧
      (test_agent cfg ag trainE testE gs 0 rInit e0 t0 o0).r2 = 0) := by
  refine ⟨?_, ?_, rfl, rfl, rfl⟩
  · intro l hl st hst
    exact runEpochs_first_start cfg ag env cfg.epochs _ l hl st hst
  · intro l st hl hst
    cases hE : cfg.epochs with
    | zero =>
      unfold train_agent at hl
      rw [hE] at hl
      simp [runEpochs] at hl
    | succ m =>
      unfold train_agent at hl
      rw [hE] at hl
      simp only [runEpochs, List.head?_cons, Option.some.injEq] at hl
      subst hl
      have := runTrajectories_head cfg ag env cfg.numTraj _ st hst
      rw [this]
      exact ⟨rfl, rfl⟩

/-- Witness for C5 (amended), instantiated on the concrete two-trajectory
run of the counterexample: the first trajectory of the (single) epoch does
start from the zero hidden state and the zero carry. -/
theorem recurrent_reset_per_epoch_witness :
    ∃ l st,
      (train_agent carryCexCfg carryCexAgent carryCexEnv () ()).2.head? = some l ∧
      l.head? = some st ∧
      st.hOut = List.replicate carryCexCfg.hiddenSize 0 ∧
      st.a2 = 0 ∧ st.r2 = 0 := by
  have h := recurrent_reset_per_epoch carryCexCfg carryCexAgent carryCexEnv
    () () carryCexEnv carryCexEnv (fun _ => true) 0 ()
  refine ⟨_, _, rfl, rfl, ?_, ?_, ?_⟩
  · exact (h.1 _ (List.mem_of_mem_head? rfl) _ rfl).1
  · exact (h.2.1 _ _ rfl rfl).1
  · exact (h.2.1 _ _ rfl rfl).2

/-- Helper: `countTestSteps` is additive over append. -/
theorem countTestSteps_append (l1 l2 : List TestEvent) :
    countTestSteps (l1 ++ l2) = countTestSteps l1 + countTestSteps l2 := by
  induction l1 with
  | nil => simp [countTestSteps]
  | cons e rest ih =>
    cases e <;> simp [countTestSteps, ih]
    omega

/-- Helper: the warm-up loop emits no held-out-environment step. -/
theorem testWarmup_count (trainE : GymEnv σ Obs) :
    ∀ (n : Nat) (s : TestState σ τ Obs),
      countTestSteps (testWarmup trainE n s).events
        = countTestSteps s.events := by
  intro n
  induction n with
  | zero => intro s; rfl
  | succ m ih =>
    intro s
    rw [testWarmup, ih]
    rw [countTestSteps_append]
    rfl

/-- Helper: the evaluation `while` loop emits no held-out-environment
step. -/
theorem testWhile_count (cfg : Config) (ag : Agent Obs)
    (trainE : GymEnv σ Obs) (gs : Nat → Bool) :
    ∀ (fuel : Nat) (s : TestState σ τ Obs),
      countTestSteps (testWhile cfg ag trainE gs fuel s).events
        = countTestSteps s.events := by
  intro fuel
  induction fuel with
  | zero => intro s; rfl
  | succ f ih =>
    intro s
    by_cases hc : (s.d || decide (s.epLen = cfg.maxEpLen)) = true
    · simp [testWhile, hc]
    · simp only [Bool.not_eq_true] at hc
      have : testWhile cfg ag trainE gs (f + 1) s
          = testWhile cfg ag trainE gs f (testStep ag trainE gs s) := by
        simp [testWhile, hc]
      rw [this, ih]
      show countTestSteps (s.events ++ [TestEvent.stepTrain _]) = _
      rw [countTestSteps_append]
      rfl

/-- Helper: one evaluated episode emits no held-out-environment step. -/
theorem testEpisode_count (cfg : Config) (ag : Agent Obs)
    (trainE : GymEnv σ Obs) (testE : GymEnv τ Obs) (gs : Nat → Bool)
    (rInit : Nat) (s : TestState σ τ Obs) :
    countTestSteps (testEpisode cfg ag trainE testE gs rInit s).events
      = countTestSteps s.events := by
  unfold testEpisode
  rw [testWhile_count, testWarmup_count]
  show countTestSteps (s.events ++ [TestEvent.resetTest]) = _
  rw [countTestSteps_append]
  rfl

/-- Helper: the episode loop emits no held-out-environment step. -/
theorem testLoop_count (cfg : Config) (ag : Agent Obs)
    (trainE : GymEnv σ Obs) (testE : GymEnv τ Obs) (gs : Nat → Bool)
    (rInit : Nat) :
    ∀ (n : Nat) (s : TestState σ τ Obs),
      countTestSteps (testLoop cfg ag trainE testE gs rInit n s).events
        = countTestSteps s.events := by
  intro n
  induction n with
  | zero => intro s; rfl
  | succ m ih =>
    intro s
    rw [testLoop, ih, testEpisode_count]

/-- Configuration for the concrete evaluation run (length cap 1). -/
def evalCexCfg : Config := ⟨1, 9, 1, 1, 1⟩

/-- The training environment of the concrete run: observation `3` on
reset, every step yields observation `7`, reward `1`, termination. -/
def evalTrainEnv : GymEnv Unit Nat :=
  ⟨fun s => (s, 3), fun s _ => ⟨s, 7, 1, true, false⟩, fun _ _ => 0⟩

/-- The held-out environment of the concrete run, distinguishable from the
training one: observation `9` on reset, every step would yield observation
`5`, reward `2`. -/
def evalTestEnv : GymEnv Bool Nat :=
  ⟨fun s => (s, 9), fun s _ => ⟨s, 5, 2, true, false⟩, fun _ _ => 1⟩

/-- The agent of the concrete run (always plays action `4`). -/
def evalAgent : Agent Nat :=
  ⟨fun _ _ _ _ h => h, fun _ _ _ _ _ => 4, fun _ _ _ _ _ => 4⟩

/-- C9 (refuting evaluation): every environment step of `test_agent` —
warm-up and evaluation alike — is taken on the TRAINING environment
`self.env`, never on the held-out `test_env` (which is only `reset`,
sac.py lines 306, 317, 326).  On the concrete run, the held-out
environment would answer observation `5` and reward `2`, yet the returned
traces hold the training environment's observation `7` and reward `1`,
and the interaction trace holds no held-out-environment step at all. -/
theorem test_agent_steps_training_env :
    (∀ (σ2 τ2 Obs2 : Type) (cfg : Config) (ag : Agent Obs2)
      (trainE : GymEnv σ2 Obs2) (testE : GymEnv τ2 Obs2) (gs : Nat → Bool)
      (numEp rInit : Nat) (e0 : σ2) (t0 : τ2) (o0 : Obs2),
      countTestSteps
        (test_agent cfg ag trainE testE gs numEp rInit e0 t0 o0).events = 0) ∧
    (test_agent evalCexCfg evalAgent evalTrainEnv evalTestEnv
        (fun _ => true) 1 2 () true 0).events
      = [TestEvent.resetTest, TestEvent.sampleTrain, TestEvent.stepTrain 0,
         TestEvent.sampleTrain, TestEvent.stepTrain 0,
         TestEvent.stepTrain 4] ∧
    (test_agent evalCexCfg evalAgent evalTrainEnv evalTestEnv
        (fun _ => true) 1 2 () true 0).obsTrace = [7] ∧
    (test_agent evalCexCfg evalAgent evalTrainEnv evalTestEnv
        (fun _ => true) 1 2 () true 0).rewTrace = [1] ∧
    (evalTestEnv.step true 4).o2 = 5 ∧ (evalTestEnv.step true 4).r = 2 := by
  refine ⟨?_, by decide, by decide, by decide, by decide, by decide⟩
  intro σ2 τ2 Obs2 cfg ag trainE testE gs numEp rInit e0 t0 o0
  unfold test_agent
  rw [testLoop_count]
  rfl
